import Mathlib

/-!
Shallow embedding of the tutorial-organization core of the repository
(`src/lib/tutorials.ts`): the Organizer (`getOrganizedTutorials`), the
Navigator (`getSeriesNavigation`, `getSeriesTutorials`), and the content
schema (`src/content/config.ts`).

Conventions of the embedding:
* JS `Date` values are represented by their `getTime()` value, an `Int`.
* JS `number` fields (`seriesOrder`) are represented by `Int`.
* Absent optional fields are `Option.none`.
* `Array.prototype.sort` is required to be stable (ECMAScript 2019), and a
  stable sort's output is uniquely determined by the comparator on a total
  preorder, so the in-place sorts of the source are modelled by
  `List.insertionSort`, which is stable.
* `Map` with insertion-order iteration is modelled by an association list
  to which new keys are appended at the end (`insertGroup`).
-/

namespace Tutorials

/-- The `difficulty` enum of the content schema, in the order used by the
`difficulties` array of `getOrganizedTutorials`. -/
inductive Difficulty where
  | beginner
  | intermediate
  | advanced
deriving DecidableEq, Repr, Inhabited

/-- The `status` enum of the content schema. -/
inductive Status where
  | draft
  | inProgress
  | complete
deriving DecidableEq, Repr, Inhabited

/-- A validated tutorial record, as handed to the core by the content
loader: the entry `slug` plus the frontmatter fields of the schema in
`src/content/config.ts`. -/
structure Tutorial where
  slug : String
  title : String
  description : String
  category : String
  tags : List String
  difficulty : Difficulty
  status : Status
  series : Option String := none
  seriesOrder : Option Int := none
  dateCreated : Int
  dateUpdated : Option Int := none
  estimatedTime : Option String := none
deriving DecidableEq, Repr, Inhabited

/-- JS truthiness of the `series` field: `!t.data.series` is true exactly
when `series` is `undefined` or the empty string. -/
def seriesActive (t : Tutorial) : Bool :=
  match t.series with
  | none => false
  | some s => decide (s ≠ "")

/-- The key used by the grouping `Map`: `t.data.series!`. On tutorials
with an active `series` this is just the series string. -/
def seriesKey (t : Tutorial) : String :=
  t.series.getD ""

/-- The effective date used for standalone recency sorting:
`a.data.dateUpdated || a.data.dateCreated`. -/
def effDate (t : Tutorial) : Int :=
  match t.dateUpdated with
  | some d => d
  | none => t.dateCreated

/-- The effective series order used for series sorting:
`a.data.seriesOrder || 0` (`undefined` and `0` both yield `0`). -/
def effOrder (t : Tutorial) : Int :=
  match t.seriesOrder with
  | some n => n
  | none => 0

/-- The ordering of the standalone sort: comparator
`(a, b) => dateB.getTime() - dateA.getTime()` puts `a` before `b` exactly
when `effDate b ≤ effDate a` (descending by effective date). -/
def dateDescLE (a b : Tutorial) : Prop :=
  effDate b ≤ effDate a

/-- The ordering of the series sort: comparator
`(a, b) => (a.data.seriesOrder || 0) - (b.data.seriesOrder || 0)` puts `a`
before `b` exactly when `effOrder a ≤ effOrder b`. -/
def seriesOrderLE (a b : Tutorial) : Prop :=
  effOrder a ≤ effOrder b

instance : DecidableRel dateDescLE :=
  fun a b => Int.decLe (effDate b) (effDate a)

instance : DecidableRel seriesOrderLE :=
  fun a b => Int.decLe (effOrder a) (effOrder b)

instance : IsTotal Tutorial dateDescLE :=
  ⟨fun a b => Int.le_total (effDate b) (effDate a)⟩

instance : IsTrans Tutorial dateDescLE :=
  ⟨fun _ _ _ hab hbc => Int.le_trans hbc hab⟩

instance : IsTotal Tutorial seriesOrderLE :=
  ⟨fun a b => Int.le_total (effOrder a) (effOrder b)⟩

instance : IsTrans Tutorial seriesOrderLE :=
  ⟨fun _ _ _ hab hbc => Int.le_trans hab hbc⟩

/-- One step of the grouping `Map`: if `key` is already present append `t`
to its bucket (`seriesMap.get(seriesSlug)!.push(t)`), otherwise append a
new `(key, [t])` entry at the end (`seriesMap.set(seriesSlug, [])`; a JS
`Map` iterates keys in first-insertion order). -/
def insertGroup {α : Type} (m : List (String × List α)) (key : String) (t : α) :
    List (String × List α) :=
  match m with
  | [] => [(key, [t])]
  | (k, ts) :: rest =>
    if k = key then (k, ts ++ [t]) :: rest
    else (k, ts) :: insertGroup rest key t

/-- The grouping `Map` built by `getOrganizedTutorials` from the tutorials
with an active `series` field, keyed by the series slug, in
first-encounter order. -/
def seriesMap (ts : List Tutorial) : List (String × List Tutorial) :=
  ts.foldl (fun m t => insertGroup m (seriesKey t) t) []

/-- Reading a bucket of the grouping map (`seriesMap.get(key)`, with `[]`
for an absent key). -/
def lookupGroup {α : Type} : List (String × List α) → String → List α
  | [], _ => []
  | (k, ts) :: rest, key => if k = key then ts else lookupGroup rest key

/-- The `Series` interface of `src/lib/tutorials.ts`. -/
structure Series where
  slug : String
  title : String
  description : String
  tutorials : List Tutorial
  category : String
  difficulty : Difficulty
deriving DecidableEq, Repr

/-- The position of a difficulty in the `difficulties` array
(`difficulties.indexOf`). -/
def diffIdx : Difficulty → Int
  | .beginner => 0
  | .intermediate => 1
  | .advanced => 2

/-- The `highestDifficulty` reduction of `getOrganizedTutorials`: fold over
the members starting from `'beginner'`, replacing the accumulator whenever
a member's difficulty index is strictly greater. -/
def highestDifficulty (items : List Tutorial) : Difficulty :=
  items.foldl
    (fun mx t => if diffIdx mx < diffIdx t.difficulty then t.difficulty else mx)
    .beginner

/-- The index-tutorial selection of the source, applied to the sorted
member list: `items.find(t => t.data.seriesOrder === 0) || items[0]`. -/
def indexTutorial (sorted : List Tutorial) : Tutorial :=
  match sorted.find? (fun t => decide (t.seriesOrder = some 0)) with
  | some t => t
  | none => sorted.headI

/-- Construction of one `Series` record from a bucket of the grouping map,
as in the `for (const [slug, items] of seriesMap)` loop: sort the bucket by
effective series order, designate the index tutorial (`find` of
`seriesOrder === 0`, else the first element), and copy its display fields. -/
def mkSeries (slug : String) (items : List Tutorial) : Series :=
  let sorted := List.insertionSort seriesOrderLE items
  let index := indexTutorial sorted
  { slug := slug
    title := index.title
    description := index.description
    tutorials := sorted
    category := index.category
    difficulty := highestDifficulty sorted }

/-- The `TutorialData` interface of `src/lib/tutorials.ts`. -/
structure TutorialData where
  standalone : List Tutorial
  series : List Series
  categories : List String
  tags : List String
deriving DecidableEq, Repr

/-- JS `[...new Set(xs)]`: duplicates removed, keeping the first occurrence
of each value, in first-occurrence order. -/
def dedupFirst {α : Type} [DecidableEq α] (xs : List α) : List α :=
  xs.foldl (fun acc x => if x ∈ acc then acc else acc ++ [x]) []

/-- Lexicographic comparison of character sequences by code point, the
order realized by the default `Array.prototype.sort()` comparator on the
category and tag strings. -/
def strLeB : List Char → List Char → Bool
  | [], _ => true
  | _ :: _, [] => false
  | c :: cs, d :: ds =>
    if c.toNat < d.toNat then true
    else if d.toNat < c.toNat then false
    else strLeB cs ds

/-- The string ordering of the default `Array.prototype.sort()` comparator,
applied to the deduplicated category and tag lists. -/
def strLE (a b : String) : Prop := strLeB a.data b.data = true

instance : DecidableRel strLE := fun a b =>
  inferInstanceAs (Decidable (strLeB a.data b.data = true))

def strLeB_total : ∀ a b : List Char, strLeB a b = true ∨ strLeB b a = true
  | [], _ => Or.inl rfl
  | _ :: _, [] => Or.inr rfl
  | c :: cs, d :: ds => by
    by_cases h1 : c.toNat < d.toNat
    · left
      simp [strLeB, h1]
    · by_cases h2 : d.toNat < c.toNat
      · right
        simp [strLeB, h1, h2]
      · rcases strLeB_total cs ds with h | h
        · left
          simp [strLeB, h1, h2, h]
        · right
          simp [strLeB, h1, h2, h]

def strLeB_trans : ∀ a b c : List Char,
    strLeB a b = true → strLeB b c = true → strLeB a c = true
  | [], _, _, _, _ => rfl
  | _ :: _, [], _, h1, _ => by simp [strLeB] at h1
  | _ :: _, _ :: _, [], _, h2 => by simp [strLeB] at h2
  | x :: xs, y :: ys, z :: zs, h1, h2 => by
    simp only [strLeB] at h1 h2 ⊢
    by_cases hxy : x.toNat < y.toNat
    · by_cases hyz : y.toNat < z.toNat
      · have hxz : x.toNat < z.toNat := Nat.lt_trans hxy hyz
        simp [hxz]
      · by_cases hzy : z.toNat < y.toNat
        · rw [if_neg hyz, if_pos hzy] at h2
          exact Bool.noConfusion h2
        · have hxz : x.toNat < z.toNat := by omega
          simp [hxz]
    · by_cases hyx : y.toNat < x.toNat
      · rw [if_neg hxy, if_pos hyx] at h1
        exact Bool.noConfusion h1
      · rw [if_neg hxy, if_neg hyx] at h1
        by_cases hyz : y.toNat < z.toNat
        · have hxz : x.toNat < z.toNat := by omega
          simp [hxz]
        · by_cases hzy : z.toNat < y.toNat
          · rw [if_neg hyz, if_pos hzy] at h2
            exact Bool.noConfusion h2
          · rw [if_neg hyz, if_neg hzy] at h2
            have hxz : ¬ x.toNat < z.toNat := by omega
            have hzx : ¬ z.toNat < x.toNat := by omega
            rw [if_neg hxz, if_neg hzx]
            exact strLeB_trans xs ys zs h1 h2

instance : IsTotal String strLE :=
  ⟨fun a b => strLeB_total a.data b.data⟩

instance : IsTrans String strLE :=
  ⟨fun a b c hab hbc => strLeB_trans a.data b.data c.data hab hbc⟩

/-- The Organizer, `getOrganizedTutorials` of `src/lib/tutorials.ts`,
parameterized by the tutorial list that the source fetches via
`getPublishedTutorials()`. -/
def getOrganizedTutorials (tutorials : List Tutorial) : TutorialData :=
  let standalone :=
    List.insertionSort dateDescLE (tutorials.filter (fun t => !seriesActive t))
  let grouped := seriesMap (tutorials.filter (fun t => seriesActive t))
  let series := grouped.map (fun g => mkSeries g.1 g.2)
  let categories :=
    List.insertionSort strLE (dedupFirst (tutorials.map (fun t => t.category)))
  let tags :=
    List.insertionSort strLE (dedupFirst (tutorials.flatMap (fun t => t.tags)))
  { standalone := standalone
    series := series
    categories := categories
    tags := tags }

/-- Return type of `getSeriesNavigation`; `current` is an `Int` because
`Array.prototype.findIndex` yields `-1` when no element matches. -/
structure SeriesNavigation where
  series : List Tutorial
  current : Int
  prev : Option Tutorial
  next : Option Tutorial
deriving DecidableEq, Repr

/-- The helper `getSeriesTutorials` of `src/lib/tutorials.ts`: the
tutorials whose `series` strictly equals the given slug, sorted by
effective series order. -/
def getSeriesTutorials (tutorials : List Tutorial) (seriesSlug : String) :
    List Tutorial :=
  List.insertionSort seriesOrderLE
    (tutorials.filter (fun t => decide (t.series = some seriesSlug)))

/-- JS `Array.prototype.findIndex`: the index of the first element
satisfying the predicate, or `-1` when none does. -/
def findIndex {α : Type} (p : α → Bool) (l : List α) : Int :=
  match l.findIdx? p with
  | some i => (i : Int)
  | none => -1

/-- The Navigator, `getSeriesNavigation` of `src/lib/tutorials.ts`,
parameterized by the tutorial list that `getSeriesTutorials` fetches
internally. -/
def getSeriesNavigation (tutorial : Tutorial) (allTutorials : List Tutorial) :
    Option SeriesNavigation :=
  if !seriesActive tutorial then none
  else
    let seriesTutorials := getSeriesTutorials allTutorials (seriesKey tutorial)
    let currentIndex : Int :=
      findIndex (fun t => decide (t.slug = tutorial.slug)) seriesTutorials
    some
      { series := seriesTutorials
        current := currentIndex
        prev :=
          if 0 < currentIndex then seriesTutorials[(currentIndex - 1).toNat]?
          else none
        next :=
          if currentIndex < (seriesTutorials.length : Int) - 1 then
            seriesTutorials[(currentIndex + 1).toNat]?
          else none }

/-! ### Concrete records used to instantiate the theorems -/

/-- Series member with `seriesOrder 0`, patterned on
`src/content/tutorials/rust-basics/index.md`. -/
def rust0 : Tutorial :=
  { slug := "rust-basics-index", title := "Rust Programming Basics",
    description := "Learn Rust from the ground up", category := "programming",
    tags := ["rust", "systems"], difficulty := .beginner, status := .complete,
    series := some "rust-basics", seriesOrder := some 0, dateCreated := 10 }

/-- Series member with `seriesOrder 1`. -/
def rust1 : Tutorial :=
  { slug := "rust-installation", title := "Installing Rust",
    description := "Rust series part 1", category := "programming",
    tags := ["rust", "tooling"], difficulty := .beginner, status := .complete,
    series := some "rust-basics", seriesOrder := some 1, dateCreated := 11 }

/-- Series member with `seriesOrder 2` and a higher difficulty. -/
def rust2 : Tutorial :=
  { slug := "rust-ownership", title := "Ownership",
    description := "Rust series part 2", category := "programming",
    tags := ["rust", "memory"], difficulty := .intermediate, status := .complete,
    series := some "rust-basics", seriesOrder := some 2, dateCreated := 12 }

/-- Standalone tutorial, patterned on
`src/content/tutorials/docker-basics.md`. -/
def dockerBasics : Tutorial :=
  { slug := "docker-basics", title := "Docker Basics for Developers",
    description := "Get started with Docker", category := "devops",
    tags := ["docker", "containers"], difficulty := .beginner, status := .complete,
    dateCreated := 15 }

/-- Standalone tutorial, patterned on
`src/content/tutorials/sdl3-intro.md`; newer than `dockerBasics`. -/
def sdlIntro : Tutorial :=
  { slug := "sdl3-intro", title := "Introduction to SDL3",
    description := "SDL3 fundamentals", category := "programming",
    tags := ["c", "sdl3"], difficulty := .beginner, status := .complete,
    dateCreated := 31 }

/-- A small tutorial collection mixing standalone tutorials and one series,
with the series members interleaved out of order. -/
def demoTutorials : List Tutorial := [dockerBasics, rust0, sdlIntro, rust1, rust2]

/-- A tutorial that claims membership in `rust-basics` but whose slug does
not occur in `demoTutorials`. -/
def ghost : Tutorial :=
  { slug := "rust-traits", title := "Traits", description := "Not in the collection",
    category := "programming", tags := [], difficulty := .advanced,
    status := .complete, series := some "rust-basics", seriesOrder := some 3,
    dateCreated := 99 }

/-! ### Raw (pre-validation) records and the content schema

At runtime the Organizer is plain JavaScript: nothing stops it from being
fed a frontmatter record from which a required field is absent. The raw
model mirrors `getOrganizedTutorials` on such records, with every field
optional, following JS semantics (`undefined` propagates through field
reads; `undefined.getTime()` throws a `TypeError`). The schema of
`src/content/config.ts` is embedded as `parseTutorialData`.
-/

/-- A frontmatter record before schema validation: every field may be
absent. (The entry slug is derived from the file path by the framework,
not read from frontmatter, and `getOrganizedTutorials` never reads it.) -/
structure RawTutorial where
  title : Option String := none
  description : Option String := none
  category : Option String := none
  tags : Option (List String) := none
  difficulty : Option Difficulty := none
  status : Option Status := none
  series : Option String := none
  seriesOrder : Option Int := none
  dateCreated : Option Int := none
  dateUpdated : Option Int := none
  estimatedTime : Option String := none
deriving DecidableEq, Repr, Inhabited

/-- The validated frontmatter produced by the Zod schema of
`src/content/config.ts` (no `slug`: Astro derives it from the path). -/
structure TutorialFrontmatter where
  title : String
  description : String
  category : String
  tags : List String
  difficulty : Difficulty
  status : Status
  series : Option String
  seriesOrder : Option Int
  dateCreated : Int
  dateUpdated : Option Int
  estimatedTime : Option String
deriving DecidableEq, Repr

/-- The tutorial schema of `src/content/config.ts`: `title`, `description`,
`category`, `difficulty`, `status` and `dateCreated` are required; `tags`
defaults to `[]`; `series`, `seriesOrder`, `dateUpdated` and
`estimatedTime` are optional. A missing required field is a validation
error naming the field. -/
def parseTutorialData (r : RawTutorial) : Except String TutorialFrontmatter :=
  match r.title with
  | none => .error "title: Required"
  | some title =>
  match r.description with
  | none => .error "description: Required"
  | some description =>
  match r.category with
  | none => .error "category: Required"
  | some category =>
  match r.difficulty with
  | none => .error "difficulty: Required"
  | some difficulty =>
  match r.status with
  | none => .error "status: Required"
  | some status =>
  match r.dateCreated with
  | none => .error "dateCreated: Required"
  | some dateCreated =>
  .ok
    { title := title
      description := description
      category := category
      tags := r.tags.getD []
      difficulty := difficulty
      status := status
      series := r.series
      seriesOrder := r.seriesOrder
      dateCreated := dateCreated
      dateUpdated := r.dateUpdated
      estimatedTime := r.estimatedTime }

/-- JS truthiness of the raw `series` field. -/
def rawSeriesActive (r : RawTutorial) : Bool :=
  match r.series with
  | none => false
  | some s => decide (s ≠ "")

/-- The raw grouping key `t.data.series!`. -/
def rawSeriesKey (r : RawTutorial) : String :=
  r.series.getD ""

/-- The raw effective date `a.data.dateUpdated || a.data.dateCreated`:
`none` when both are absent, in which case the standalone comparator would
evaluate `undefined.getTime()` and throw. -/
def rawEffDate (r : RawTutorial) : Option Int :=
  match r.dateUpdated with
  | some d => some d
  | none => r.dateCreated

/-- The raw effective series order `a.data.seriesOrder || 0`. -/
def rawEffOrder (r : RawTutorial) : Int :=
  r.seriesOrder.getD 0

/-- The value of `difficulties.indexOf(t.data.difficulty)`: `-1` when the
field is absent (`indexOf` of `undefined`). -/
def rawDiffIdx (r : RawTutorial) : Int :=
  match r.difficulty with
  | some d => diffIdx d
  | none => -1

/-- The ordering of the raw series sort. -/
def rawSeriesOrderLE (a b : RawTutorial) : Prop :=
  rawEffOrder a ≤ rawEffOrder b

instance : DecidableRel rawSeriesOrderLE :=
  fun a b => Int.decLe (rawEffOrder a) (rawEffOrder b)

/-- The ordering of the raw standalone sort; only ever invoked when all
effective dates are present (otherwise the comparator throws first). -/
def rawDateDescLE (a b : RawTutorial) : Prop :=
  (rawEffDate b).getD 0 ≤ (rawEffDate a).getD 0

instance : DecidableRel rawDateDescLE :=
  fun a b => Int.decLe ((rawEffDate b).getD 0) ((rawEffDate a).getD 0)

/-- The `highestDifficulty` reduction over raw records. The accumulator is
always a genuine difficulty, since it starts at `'beginner'` and is only
replaced by a member's difficulty when that member's index is strictly
greater than the accumulator's (which `-1`, the index of `undefined`,
never is). -/
def rawHighestDifficulty (items : List RawTutorial) : Difficulty :=
  items.foldl
    (fun mx t =>
      if diffIdx mx < rawDiffIdx t then t.difficulty.getD .beginner else mx)
    .beginner

/-- A `Series` view built from raw records; the display fields are whatever
the index record holds, possibly `undefined`. -/
structure RawSeries where
  slug : String
  title : Option String
  description : Option String
  tutorials : List RawTutorial
  category : Option String
  difficulty : Difficulty
deriving DecidableEq, Repr

/-- The raw index-tutorial selection
(`items.find(t => t.data.seriesOrder === 0) || items[0]`). -/
def rawIndexTutorial (sorted : List RawTutorial) : RawTutorial :=
  match sorted.find? (fun t => decide (t.seriesOrder = some 0)) with
  | some t => t
  | none => sorted.headI

/-- One raw `Series` record. -/
def rawMkSeries (slug : String) (items : List RawTutorial) : RawSeries :=
  let sorted := List.insertionSort rawSeriesOrderLE items
  let index := rawIndexTutorial sorted
  { slug := slug
    title := index.title
    description := index.description
    tutorials := sorted
    category := index.category
    difficulty := rawHighestDifficulty sorted }

/-- The result shape of the Organizer on raw records: `categories` and
`tags` may contain `undefined` entries (`none`), which the default JS sort
places after every string. -/
structure RawTutorialData where
  standalone : List RawTutorial
  series : List RawSeries
  categories : List (Option String)
  tags : List (Option String)
deriving DecidableEq, Repr

deriving instance DecidableEq for Except

/-- The contribution of `t.data.tags` to `tutorials.flatMap(t => t.data.tags)`: a
present array contributes its strings; an absent one contributes the
single non-array element `undefined`, which `flatMap` keeps as-is. -/
def rawTagsList (r : RawTutorial) : List (Option String) :=
  match r.tags with
  | some ts => ts.map some
  | none => [none]

/-- The default JS sort order on `String | undefined` values: `undefined`
is placed after every string, strings compare lexicographically. -/
def rawStrLE : Option String → Option String → Prop
  | some a, some b => strLE a b
  | some _, none => True
  | none, some _ => False
  | none, none => True

instance : DecidableRel rawStrLE := fun a b =>
  match a, b with
  | some a, some b => inferInstanceAs (Decidable (strLE a b))
  | some _, none => inferInstanceAs (Decidable True)
  | none, some _ => inferInstanceAs (Decidable False)
  | none, none => inferInstanceAs (Decidable True)

/-- The Organizer `getOrganizedTutorials` run on raw records, with JS runtime semantics:
the only way it can fail is the standalone date comparator evaluating
`undefined.getTime()`, which happens exactly when at least two tutorials
are standalone (so the comparator runs) and a standalone tutorial has
neither date. Everything else tolerates absent fields silently. -/
def rawOrganize (tutorials : List RawTutorial) : Except String RawTutorialData :=
  let withoutSeries := tutorials.filter (fun t => !rawSeriesActive t)
  if 2 ≤ withoutSeries.length ∧ withoutSeries.any (fun t => (rawEffDate t).isNone) then
    .error "TypeError: Cannot read properties of undefined (reading 'getTime')"
  else
    let standalone := List.insertionSort rawDateDescLE withoutSeries
    let grouped := (tutorials.filter (fun t => rawSeriesActive t)).foldl
      (fun m t => insertGroup m (rawSeriesKey t) t) []
    let series := grouped.map (fun g => rawMkSeries g.1 g.2)
    let categories :=
      List.insertionSort rawStrLE (dedupFirst (tutorials.map (fun t => t.category)))
    let tags :=
      List.insertionSort rawStrLE (dedupFirst (tutorials.flatMap rawTagsList))
    .ok
      { standalone := standalone
        series := series
        categories := categories
        tags := tags }

/-- A raw record with every schema field present except the required
`category`. -/
def rawMissingCategory : RawTutorial :=
  { title := some "Docker Basics for Developers"
    description := some "Get started with Docker"
    category := none
    tags := some ["docker", "containers"]
    difficulty := some .beginner
    status := some .complete
    series := none
    seriesOrder := none
    dateCreated := some 15
    dateUpdated := none
    estimatedTime := some "20 min" }

/-- A raw record with all required fields present and both optional
`seriesOrder` and `dateUpdated` absent. -/
def rawAllRequired : RawTutorial :=
  { title := some "Introduction to SDL3"
    description := some "SDL3 fundamentals"
    category := some "programming"
    tags := none
    difficulty := some .beginner
    status := some .complete
    series := none
    seriesOrder := none
    dateCreated := some 31
    dateUpdated := none
    estimatedTime := none }

/-! ### General lemmas about the embedded operations -/

/-- A stable sort leaves each class of mutually `r`-related elements (for
example, the elements sharing one sort key) exactly where the input put
them: filtering the sorted output by such a class gives the same list as
filtering the input. -/
theorem filter_insertionSort (r : Tutorial → Tutorial → Prop) [DecidableRel r]
    (p : Tutorial → Bool) (hp : ∀ a b, p a = true → p b = true → r a b)
    (l : List Tutorial) :
    (List.insertionSort r l).filter p = l.filter p := by
  have hpw : (l.filter p).Pairwise r :=
    List.pairwise_of_forall_mem_list fun a ha b hb =>
      hp a b (List.of_mem_filter ha) (List.of_mem_filter hb)
  have hsub : List.Sublist (l.filter p) (List.insertionSort r l) :=
    List.sublist_insertionSort hpw (List.filter_sublist l)
  have h2 : List.Sublist (l.filter p) ((List.insertionSort r l).filter p) := by
    have h3 := hsub.filter p
    simpa using h3
  have hlen : ((List.insertionSort r l).filter p).length = (l.filter p).length :=
    ((List.perm_insertionSort r l).filter p).length_eq
  exact (h2.eq_of_length hlen.symm).symm

theorem insertGroup_map_fst {α : Type} (m : List (String × List α)) (key : String)
    (t : α) :
    (insertGroup m key t).map Prod.fst =
      if key ∈ m.map Prod.fst then m.map Prod.fst
      else m.map Prod.fst ++ [key] := by
  induction m with
  | nil => simp [insertGroup]
  | cons e rest ih =>
    obtain ⟨k, ts⟩ := e
    by_cases hk : k = key
    · subst hk
      simp [insertGroup]
    · by_cases hmem : key ∈ rest.map Prod.fst
      · simp [insertGroup, hk, ih, hmem, Ne.symm hk]
      · simp [insertGroup, hk, ih, hmem, Ne.symm hk]

theorem lookupGroup_insertGroup {α : Type} (m : List (String × List α))
    (key₀ : String) (t : α) (key : String) :
    lookupGroup (insertGroup m key₀ t) key =
      if key₀ = key then lookupGroup m key ++ [t] else lookupGroup m key := by
  induction m with
  | nil =>
    by_cases h : key₀ = key
    · simp [insertGroup, lookupGroup, h]
    · simp [insertGroup, lookupGroup, h]
  | cons e rest ih =>
    obtain ⟨k, ts⟩ := e
    by_cases hk : k = key₀
    · subst hk
      by_cases h : k = key
      · simp [insertGroup, lookupGroup, h]
      · simp [insertGroup, lookupGroup, h]
    · rw [insertGroup, if_neg hk]
      by_cases h : k = key
      · have hne : key₀ ≠ key := fun hc => hk (h.trans hc.symm)
        simp [lookupGroup, h, hne]
      · simp only [lookupGroup, if_neg h]
        exact ih

theorem foldl_insertGroup_lookup (l : List Tutorial) :
    ∀ (m : List (String × List Tutorial)) (key : String),
      lookupGroup (l.foldl (fun m t => insertGroup m (seriesKey t) t) m) key =
        lookupGroup m key ++ l.filter (fun t => decide (seriesKey t = key)) := by
  induction l with
  | nil =>
    intro m key
    simp
  | cons t l ih =>
    intro m key
    rw [List.foldl_cons, ih, lookupGroup_insertGroup]
    by_cases h : seriesKey t = key
    · simp [h]
    · simp [h]

theorem foldl_insertGroup_map_fst (l : List Tutorial) :
    ∀ m : List (String × List Tutorial),
      (l.foldl (fun m t => insertGroup m (seriesKey t) t) m).map Prod.fst =
        (l.map seriesKey).foldl
          (fun acc x => if x ∈ acc then acc else acc ++ [x]) (m.map Prod.fst) := by
  induction l with
  | nil => intro m; simp
  | cons t l ih =>
    intro m
    rw [List.foldl_cons, ih, insertGroup_map_fst, List.map_cons, List.foldl_cons]

theorem seriesMap_map_fst (l : List Tutorial) :
    (seriesMap l).map Prod.fst = dedupFirst (l.map seriesKey) := by
  rw [seriesMap, foldl_insertGroup_map_fst]
  rfl

theorem seriesMap_lookup (l : List Tutorial) (key : String) :
    lookupGroup (seriesMap l) key = l.filter (fun t => decide (seriesKey t = key)) := by
  rw [seriesMap, foldl_insertGroup_lookup]
  simp [lookupGroup]

theorem dedupFirst_aux_nodup {α : Type} [DecidableEq α] (xs : List α) :
    ∀ acc : List α, acc.Nodup →
      (xs.foldl (fun acc x => if x ∈ acc then acc else acc ++ [x]) acc).Nodup := by
  induction xs with
  | nil => intro acc h; simpa
  | cons x xs ih =>
    intro acc h
    rw [List.foldl_cons]
    by_cases hx : x ∈ acc
    · simpa [hx] using ih acc h
    · have hcat : (acc ++ [x]).Nodup := by
        simp [List.nodup_append, h, hx]
      simpa [hx] using ih _ hcat

theorem dedupFirst_nodup {α : Type} [DecidableEq α] (xs : List α) :
    (dedupFirst xs).Nodup :=
  dedupFirst_aux_nodup xs [] List.nodup_nil

theorem dedupFirst_aux_mem {α : Type} [DecidableEq α] (xs : List α) :
    ∀ (acc : List α) (a : α),
      (a ∈ xs.foldl (fun acc x => if x ∈ acc then acc else acc ++ [x]) acc) ↔
        a ∈ acc ∨ a ∈ xs := by
  induction xs with
  | nil => intro acc a; simp
  | cons x xs ih =>
    intro acc a
    rw [List.foldl_cons]
    by_cases hx : x ∈ acc
    · rw [if_pos hx, ih]
      constructor
      · rintro (h | h)
        · exact Or.inl h
        · exact Or.inr (List.mem_cons_of_mem x h)
      · rintro (h | h)
        · exact Or.inl h
        · rcases List.mem_cons.mp h with rfl | h
          · exact Or.inl hx
          · exact Or.inr h
    · rw [if_neg hx, ih]
      constructor
      · rintro (h | h)
        · rcases List.mem_append.mp h with h | h
          · exact Or.inl h
          · rcases List.mem_singleton.mp h with rfl
            exact Or.inr (List.mem_cons_self _ _)
        · exact Or.inr (List.mem_cons_of_mem x h)
      · rintro (h | h)
        · exact Or.inl (List.mem_append.mpr (Or.inl h))
        · rcases List.mem_cons.mp h with rfl | h
          · exact Or.inl (List.mem_append.mpr (Or.inr (List.mem_singleton.mpr rfl)))
          · exact Or.inr h

theorem mem_dedupFirst {α : Type} [DecidableEq α] (xs : List α) (a : α) :
    a ∈ dedupFirst xs ↔ a ∈ xs := by
  rw [dedupFirst, dedupFirst_aux_mem]
  simp

theorem insertGroup_flatMap_perm {α : Type} (m : List (String × List α))
    (key : String) (t : α) :
    ((insertGroup m key t).flatMap Prod.snd).Perm (m.flatMap Prod.snd ++ [t]) := by
  induction m with
  | nil => simp [insertGroup]
  | cons e rest ih =>
    obtain ⟨k, ts⟩ := e
    by_cases hk : k = key
    · rw [insertGroup, if_pos hk]
      simp only [List.flatMap_cons]
      rw [List.append_assoc, List.append_assoc]
      exact (List.Perm.append_left ts
        (@List.perm_append_comm _ [t] (rest.flatMap Prod.snd)))
    · rw [insertGroup, if_neg hk]
      simp only [List.flatMap_cons]
      rw [List.append_assoc]
      exact List.Perm.append_left ts ih

theorem foldl_insertGroup_flatMap_perm (l : List Tutorial) :
    ∀ m : List (String × List Tutorial),
      ((l.foldl (fun m t => insertGroup m (seriesKey t) t) m).flatMap Prod.snd).Perm
        (m.flatMap Prod.snd ++ l) := by
  induction l with
  | nil => intro m; simp
  | cons t l ih =>
    intro m
    rw [List.foldl_cons]
    refine (ih _).trans ?_
    refine ((insertGroup_flatMap_perm m (seriesKey t) t).append_right l).trans ?_
    rw [List.append_assoc, List.singleton_append]

theorem seriesMap_flatMap_perm (l : List Tutorial) :
    ((seriesMap l).flatMap Prod.snd).Perm l := by
  simpa using foldl_insertGroup_flatMap_perm l []

theorem insertGroup_snd_ne_nil {α : Type} (m : List (String × List α)) (key : String)
    (t : α) (h : ∀ e ∈ m, e.2 ≠ []) :
    ∀ e ∈ insertGroup m key t, e.2 ≠ [] := by
  induction m with
  | nil =>
    intro e he
    rw [insertGroup] at he
    rcases List.mem_singleton.mp he with rfl
    simp
  | cons e₀ rest ih =>
    obtain ⟨k, ts⟩ := e₀
    intro e he
    by_cases hk : k = key
    · rw [insertGroup, if_pos hk] at he
      rcases List.mem_cons.mp he with rfl | hmem
      · simp
      · exact h e (List.mem_cons_of_mem _ hmem)
    · rw [insertGroup, if_neg hk] at he
      rcases List.mem_cons.mp he with rfl | hmem
      · exact h _ (List.mem_cons_self _ _)
      · exact ih (fun e' he' => h e' (List.mem_cons_of_mem _ he')) e hmem

theorem seriesMap_snd_ne_nil (l : List Tutorial) :
    ∀ e ∈ seriesMap l, e.2 ≠ [] := by
  rw [seriesMap]
  have : ∀ (m : List (String × List Tutorial)), (∀ e ∈ m, e.2 ≠ []) →
      ∀ e ∈ l.foldl (fun m t => insertGroup m (seriesKey t) t) m, e.2 ≠ [] := by
    induction l with
    | nil => intro m h; simpa using h
    | cons t l ih =>
      intro m h
      rw [List.foldl_cons]
      exact ih _ (insertGroup_snd_ne_nil m (seriesKey t) t h)
  exact this [] (by simp)

theorem lookupGroup_eq_of_mem_nodup {α : Type} (m : List (String × List α))
    (key : String) (v : List α) (hnd : (m.map Prod.fst).Nodup)
    (hmem : (key, v) ∈ m) :
    lookupGroup m key = v := by
  induction m with
  | nil => cases hmem
  | cons e rest ih =>
    obtain ⟨k, ts⟩ := e
    rcases List.mem_cons.mp hmem with heq | hmem'
    · cases heq
      simp [lookupGroup]
    · have hk : k ≠ key := by
        intro hc
        subst hc
        have : k ∈ rest.map Prod.fst := by
          exact List.mem_map_of_mem Prod.fst hmem'
        exact (List.nodup_cons.mp (by simpa using hnd)).1 this
      rw [lookupGroup, if_neg hk]
      exact ih (List.nodup_cons.mp (by simpa using hnd)).2 hmem'

/-- Any bucket of `seriesMap l` is exactly the sublist of `l` whose
`seriesKey` is the bucket's key, in input order. -/
theorem mem_seriesMap_eq_filter (l : List Tutorial) {key : String}
    {items : List Tutorial} (h : (key, items) ∈ seriesMap l) :
    items = l.filter (fun t => decide (seriesKey t = key)) := by
  have hnd : ((seriesMap l).map Prod.fst).Nodup := by
    rw [seriesMap_map_fst]
    exact dedupFirst_nodup _
  rw [← lookupGroup_eq_of_mem_nodup (seriesMap l) key items hnd h]
  exact seriesMap_lookup l key

theorem diffIdx_nonneg (d : Difficulty) : 0 ≤ diffIdx d := by
  cases d <;> simp [diffIdx]

theorem diffIdx_eq_zero (d : Difficulty) (h : diffIdx d = 0) : d = .beginner := by
  cases d <;> simp_all [diffIdx]

theorem highestDifficulty_start_le (items : List Tutorial) :
    ∀ mx : Difficulty,
      diffIdx mx ≤ diffIdx (items.foldl
        (fun mx t => if diffIdx mx < diffIdx t.difficulty then t.difficulty else mx) mx) := by
  induction items with
  | nil => intro mx; simp
  | cons t items ih =>
    intro mx
    rw [List.foldl_cons]
    refine le_trans ?_ (ih _)
    by_cases h : diffIdx mx < diffIdx t.difficulty
    · rw [if_pos h]
      exact le_of_lt h
    · rw [if_neg h]

theorem highestDifficulty_le (items : List Tutorial) :
    ∀ (mx : Difficulty) (t : Tutorial), t ∈ items →
      diffIdx t.difficulty ≤ diffIdx (items.foldl
        (fun mx t => if diffIdx mx < diffIdx t.difficulty then t.difficulty else mx) mx) := by
  induction items with
  | nil => intro mx t h; cases h
  | cons u items ih =>
    intro mx t h
    rw [List.foldl_cons]
    rcases List.mem_cons.mp h with rfl | hmem
    · refine le_trans ?_ (highestDifficulty_start_le items _)
      by_cases hc : diffIdx mx < diffIdx t.difficulty
      · rw [if_pos hc]
      · rw [if_neg hc]
        exact le_of_not_lt hc
    · exact ih _ t hmem

theorem highestDifficulty_mem (items : List Tutorial) :
    ∀ mx : Difficulty,
      items.foldl
        (fun mx t => if diffIdx mx < diffIdx t.difficulty then t.difficulty else mx) mx = mx ∨
      ∃ t ∈ items, items.foldl
        (fun mx t => if diffIdx mx < diffIdx t.difficulty then t.difficulty else mx) mx
          = t.difficulty := by
  induction items with
  | nil => intro mx; exact Or.inl rfl
  | cons u items ih =>
    intro mx
    rw [List.foldl_cons]
    by_cases hc : diffIdx mx < diffIdx u.difficulty
    · rw [if_pos hc]
      rcases ih u.difficulty with h | ⟨t, ht, h⟩
      · exact Or.inr ⟨u, List.mem_cons_self _ _, h⟩
      · exact Or.inr ⟨t, List.mem_cons_of_mem _ ht, h⟩
    · rw [if_neg hc]
      rcases ih mx with h | ⟨t, ht, h⟩
      · exact Or.inl h
      · exact Or.inr ⟨t, List.mem_cons_of_mem _ ht, h⟩

/-! ### C1 -/

/-- C1: the Organizer partitions its input. `standalone` is a permutation of
the input tutorials with no (null/empty) `series` field, and the
concatenation of the `tutorials` lists of all Series in the result is a
permutation of the input tutorials with a non-empty `series` field: no
tutorial is lost or duplicated by organize. -/
theorem organize_partitions (ts : List Tutorial) :
    ((getOrganizedTutorials ts).standalone).Perm
      (ts.filter (fun t => !seriesActive t)) ∧
    ((getOrganizedTutorials ts).series.flatMap Series.tutorials).Perm
      (ts.filter (fun t => seriesActive t)) := by
  constructor
  · exact List.perm_insertionSort _ _
  · have h1 : (getOrganizedTutorials ts).series =
        (seriesMap (ts.filter (fun t => seriesActive t))).map
          (fun g => mkSeries g.1 g.2) := rfl
    rw [h1]
    have h2 : ∀ gs : List (String × List Tutorial),
        ((gs.map (fun g => mkSeries g.1 g.2)).flatMap Series.tutorials).Perm
          (gs.flatMap Prod.snd) := by
      intro gs
      induction gs with
      | nil => simp
      | cons g rest ih =>
        simp only [List.map_cons, List.flatMap_cons]
        exact (List.perm_insertionSort seriesOrderLE g.2).append ih
    exact (h2 _).trans (seriesMap_flatMap_perm _)

/-! ### C2 -/

/-- C2: the Organizer's `series` list has exactly one Series per distinct
`series` value, in first-encounter order of the values in the input; within
every Series the `tutorials` list is sorted non-decreasing by `seriesOrder`
(missing treated as 0), and the tutorials with any one effective order value
appear exactly in their relative input order (stable ties). -/
theorem organize_series_grouping (ts : List Tutorial) :
    ((getOrganizedTutorials ts).series.map Series.slug =
      dedupFirst ((ts.filter (fun t => seriesActive t)).map seriesKey)) ∧
    (∀ s ∈ (getOrganizedTutorials ts).series, s.tutorials.Pairwise seriesOrderLE) ∧
    (∀ s ∈ (getOrganizedTutorials ts).series, ∀ k : Int,
      s.tutorials.filter (fun t => decide (effOrder t = k)) =
        ((ts.filter (fun t => seriesActive t)).filter
            (fun t => decide (seriesKey t = s.slug))).filter
          (fun t => decide (effOrder t = k))) := by
  have hser : (getOrganizedTutorials ts).series =
      (seriesMap (ts.filter (fun t => seriesActive t))).map
        (fun g => mkSeries g.1 g.2) := rfl
  refine ⟨?_, ?_, ?_⟩
  · rw [hser, List.map_map, ← seriesMap_map_fst]
    rfl
  · intro s hs
    rw [hser] at hs
    obtain ⟨g, _, rfl⟩ := List.mem_map.mp hs
    exact List.sorted_insertionSort seriesOrderLE g.2
  · intro s hs k
    rw [hser] at hs
    obtain ⟨g, hg, rfl⟩ := List.mem_map.mp hs
    have htut : (mkSeries g.1 g.2).tutorials =
        List.insertionSort seriesOrderLE g.2 := rfl
    have hslug : (mkSeries g.1 g.2).slug = g.1 := rfl
    rw [htut, hslug]
    rw [filter_insertionSort seriesOrderLE _
      (fun a b ha hb => by
        have ha' : effOrder a = k := of_decide_eq_true ha
        have hb' : effOrder b = k := of_decide_eq_true hb
        show effOrder a ≤ effOrder b
        rw [ha', hb'])]
    have hitems : g.2 = (ts.filter (fun t => seriesActive t)).filter
        (fun t => decide (seriesKey t = g.1)) :=
      mem_seriesMap_eq_filter _ (by simpa using hg)
    rw [← hitems]

/-- Witness for C2 at the demo collection: the single series is
`rust-basics` and its member list is sorted by effective order. -/
theorem organize_series_grouping_witness :
    (getOrganizedTutorials demoTutorials).series.map Series.slug = ["rust-basics"] ∧
    (mkSeries "rust-basics" [rust0, rust1, rust2]).tutorials.Pairwise seriesOrderLE :=
  ⟨(organize_series_grouping demoTutorials).1.trans (by decide),
    (organize_series_grouping demoTutorials).2.1 _ (by decide)⟩

/-! ### C6 -/

/-- C6: the Organizer's `standalone` list is sorted descending by effective
date (`dateUpdated` if present, else `dateCreated`), and tutorials with any
one effective date keep their relative input order (stable ties). -/
theorem organize_standalone_sorted (ts : List Tutorial) :
    (getOrganizedTutorials ts).standalone.Pairwise dateDescLE ∧
    ∀ d : Int,
      (getOrganizedTutorials ts).standalone.filter (fun t => decide (effDate t = d)) =
        (ts.filter (fun t => !seriesActive t)).filter
          (fun t => decide (effDate t = d)) := by
  constructor
  · exact List.sorted_insertionSort dateDescLE _
  · intro d
    exact filter_insertionSort dateDescLE _
      (fun a b ha hb => by
        have ha' : effDate a = d := of_decide_eq_true ha
        have hb' : effDate b = d := of_decide_eq_true hb
        show effDate b ≤ effDate a
        rw [ha', hb']) _

/-! ### C7 -/

theorem indexTutorial_mem (sorted : List Tutorial) (h : sorted ≠ []) :
    indexTutorial sorted ∈ sorted := by
  unfold indexTutorial
  split
  · next t hf => exact List.mem_of_find?_eq_some hf
  · cases sorted with
    | nil => exact absurd rfl h
    | cons a l => exact List.mem_cons_self _ _

theorem insertionSort_ne_nil (r : Tutorial → Tutorial → Prop) [DecidableRel r]
    (l : List Tutorial) (h : l ≠ []) : List.insertionSort r l ≠ [] := by
  intro hc
  exact h ((hc ▸ List.perm_insertionSort r l).symm.eq_nil)

/-- C7: every Series copies `title`, `description` and `category` from the
index tutorial — the first member after sorting whose `seriesOrder` is
exactly 0, else the first member after sorting — and the index tutorial
stays in the `tutorials` list. -/
theorem organize_series_index_fields (ts : List Tutorial) :
    ∀ s ∈ (getOrganizedTutorials ts).series,
      s.title = (indexTutorial s.tutorials).title ∧
      s.description = (indexTutorial s.tutorials).description ∧
      s.category = (indexTutorial s.tutorials).category ∧
      indexTutorial s.tutorials ∈ s.tutorials := by
  intro s hs
  replace hs : s ∈ (seriesMap (ts.filter (fun t => seriesActive t))).map
      (fun g => mkSeries g.1 g.2) := hs
  obtain ⟨g, hg, rfl⟩ := List.mem_map.mp hs
  refine ⟨rfl, rfl, rfl, ?_⟩
  apply indexTutorial_mem
  exact insertionSort_ne_nil seriesOrderLE g.2 (seriesMap_snd_ne_nil _ g hg)

/-- Witness for C7 at the demo collection. -/
theorem organize_series_index_fields_witness :
    (mkSeries "rust-basics" [rust0, rust1, rust2]).title =
      (indexTutorial (mkSeries "rust-basics" [rust0, rust1, rust2]).tutorials).title :=
  ((organize_series_index_fields demoTutorials) _ (by decide)).1

/-! ### C8 -/

/-- C8: every Series' `difficulty` is the `highestDifficulty` fold (started
from `beginner`) over its members, and that value is the maximum member
difficulty under beginner < intermediate < advanced: it dominates every
member and is attained by one. -/
theorem organize_series_difficulty (ts : List Tutorial) :
    ∀ s ∈ (getOrganizedTutorials ts).series,
      s.difficulty = highestDifficulty s.tutorials ∧
      (∀ t ∈ s.tutorials, diffIdx t.difficulty ≤ diffIdx s.difficulty) ∧
      ∃ t ∈ s.tutorials, t.difficulty = s.difficulty := by
  intro s hs
  replace hs : s ∈ (seriesMap (ts.filter (fun t => seriesActive t))).map
      (fun g => mkSeries g.1 g.2) := hs
  obtain ⟨g, hg, rfl⟩ := List.mem_map.mp hs
  have hne : (mkSeries g.1 g.2).tutorials ≠ [] :=
    insertionSort_ne_nil seriesOrderLE g.2 (seriesMap_snd_ne_nil _ g hg)
  refine ⟨rfl, ?_, ?_⟩
  · intro t ht
    exact highestDifficulty_le (mkSeries g.1 g.2).tutorials .beginner t ht
  · rcases highestDifficulty_mem (mkSeries g.1 g.2).tutorials .beginner with h | ⟨t, ht, h⟩
    · obtain ⟨t, ht⟩ := List.exists_mem_of_ne_nil _ hne
      refine ⟨t, ht, ?_⟩
      have h1 := highestDifficulty_le (mkSeries g.1 g.2).tutorials .beginner t ht
      rw [h] at h1
      have h0 : diffIdx t.difficulty = 0 := le_antisymm h1 (diffIdx_nonneg _)
      exact (diffIdx_eq_zero _ h0).trans h.symm
    · exact ⟨t, ht, h.symm⟩

/-- Witness for C8 at the demo collection: the rust series' difficulty is
attained by a member. -/
theorem organize_series_difficulty_witness :
    ∃ t ∈ (mkSeries "rust-basics" [rust0, rust1, rust2]).tutorials,
      t.difficulty = (mkSeries "rust-basics" [rust0, rust1, rust2]).difficulty :=
  ((organize_series_difficulty demoTutorials) _ (by decide)).2.2

/-! ### C9 -/

/-- C9: `categories` is the sorted duplicate-free list of the `category`
values of ALL input tutorials (series members included), and `tags` the
sorted duplicate-free union of all `tags` arrays. -/
theorem organize_categories_tags (ts : List Tutorial) :
    (getOrganizedTutorials ts).categories.Pairwise strLE ∧
    (getOrganizedTutorials ts).categories.Nodup ∧
    (∀ c, c ∈ (getOrganizedTutorials ts).categories ↔
      c ∈ ts.map (fun t => t.category)) ∧
    (getOrganizedTutorials ts).tags.Pairwise strLE ∧
    (getOrganizedTutorials ts).tags.Nodup ∧
    (∀ x, x ∈ (getOrganizedTutorials ts).tags ↔
      x ∈ ts.flatMap (fun t => t.tags)) := by
  refine ⟨?_, ?_, ?_, ?_, ?_, ?_⟩
  · exact List.sorted_insertionSort strLE _
  · exact (List.perm_insertionSort strLE _).nodup_iff.mpr (dedupFirst_nodup _)
  · intro c
    exact ((List.perm_insertionSort strLE _).mem_iff).trans (mem_dedupFirst _ c)
  · exact List.sorted_insertionSort strLE _
  · exact (List.perm_insertionSort strLE _).nodup_iff.mpr (dedupFirst_nodup _)
  · intro x
    exact ((List.perm_insertionSort strLE _).mem_iff).trans (mem_dedupFirst _ x)

/-- Witness for C9 at the demo collection: `devops`, used by a standalone
tutorial, and `memory`, used only inside the series, both appear. -/
theorem organize_categories_tags_witness :
    "devops" ∈ (getOrganizedTutorials demoTutorials).categories ∧
    "memory" ∈ (getOrganizedTutorials demoTutorials).tags :=
  ⟨((organize_categories_tags demoTutorials).2.2.1 "devops").mpr (by decide),
    ((organize_categories_tags demoTutorials).2.2.2.2.2 "memory").mpr (by decide)⟩

/-! ### Navigator lemmas -/

theorem findIndex_eq_neg_one {α : Type} {p : α → Bool} {l : List α}
    (h : l.findIdx? p = none) : findIndex p l = -1 := by
  unfold findIndex
  rw [h]

theorem findIndex_eq_ofNat {α : Type} {p : α → Bool} {l : List α} {i : Nat}
    (h : l.findIdx? p = some i) : findIndex p l = (i : Int) := by
  unfold findIndex
  rw [h]

/-- On a tutorial with an active `series`, the Navigator takes its `else`
branch and returns the record built from the sorted member list. -/
theorem getSeriesNavigation_active (tutorial : Tutorial) (allTutorials : List Tutorial)
    (h : seriesActive tutorial = true) :
    getSeriesNavigation tutorial allTutorials =
      some
        { series := getSeriesTutorials allTutorials (seriesKey tutorial)
          current := findIndex (fun t => decide (t.slug = tutorial.slug))
            (getSeriesTutorials allTutorials (seriesKey tutorial))
          prev :=
            if 0 < findIndex (fun t => decide (t.slug = tutorial.slug))
                (getSeriesTutorials allTutorials (seriesKey tutorial)) then
              (getSeriesTutorials allTutorials (seriesKey tutorial))[
                (findIndex (fun t => decide (t.slug = tutorial.slug))
                  (getSeriesTutorials allTutorials (seriesKey tutorial)) - 1).toNat]?
            else none
          next :=
            if findIndex (fun t => decide (t.slug = tutorial.slug))
                  (getSeriesTutorials allTutorials (seriesKey tutorial)) <
                ((getSeriesTutorials allTutorials (seriesKey tutorial)).length : Int)
                  - 1 then
              (getSeriesTutorials allTutorials (seriesKey tutorial))[
                (findIndex (fun t => decide (t.slug = tutorial.slug))
                  (getSeriesTutorials allTutorials (seriesKey tutorial)) + 1).toNat]?
            else none } := by
  unfold getSeriesNavigation
  rw [h]
  rfl

/-- On a tutorial without an active `series`, the Navigator returns
`null`. -/
theorem getSeriesNavigation_inactive (tutorial : Tutorial) (allTutorials : List Tutorial)
    (h : seriesActive tutorial = false) :
    getSeriesNavigation tutorial allTutorials = none := by
  unfold getSeriesNavigation
  rw [h]
  rfl

/-! ### C3 -/

/-- C3: the Navigator returns null exactly when the given tutorial's
`series` is absent or empty; otherwise it returns the series members
sorted by the same rule as the Organizer (effective seriesOrder ascending,
stable ties), and for a tutorial found at sorted position `i`: `current =
i`, `prev` is null iff `i = 0` and otherwise the member at `i - 1`, `next`
is null iff `i` is the last position and otherwise the member at `i + 1`. -/
theorem navigation_characterization (tutorial : Tutorial) (allTutorials : List Tutorial) :
    (getSeriesNavigation tutorial allTutorials = none ↔ seriesActive tutorial = false) ∧
    (∀ nav, getSeriesNavigation tutorial allTutorials = some nav →
      nav.series = getSeriesTutorials allTutorials (seriesKey tutorial) ∧
      nav.series.Pairwise seriesOrderLE ∧
      (∀ k : Int, nav.series.filter (fun t => decide (effOrder t = k)) =
        (allTutorials.filter
            (fun t => decide (t.series = some (seriesKey tutorial)))).filter
          (fun t => decide (effOrder t = k))) ∧
      (∀ i : Nat,
        nav.series.findIdx? (fun t => decide (t.slug = tutorial.slug)) = some i →
        nav.current = (i : Int) ∧
        (i = 0 → nav.prev = none) ∧
        (i ≠ 0 → nav.prev = nav.series[i - 1]? ∧ (nav.series[i - 1]?).isSome = true) ∧
        (i = nav.series.length - 1 → nav.next = none) ∧
        (i ≠ nav.series.length - 1 →
          nav.next = nav.series[i + 1]? ∧ (nav.series[i + 1]?).isSome = true))) := by
  constructor
  · constructor
    · intro h
      cases hact : seriesActive tutorial with
      | false => rfl
      | true =>
        rw [getSeriesNavigation_active _ _ hact] at h
        exact Option.noConfusion h
    · intro h
      exact getSeriesNavigation_inactive _ _ h
  · intro nav hnav
    have hact : seriesActive tutorial = true := by
      cases hact : seriesActive tutorial with
      | true => rfl
      | false =>
        rw [getSeriesNavigation_inactive _ _ hact] at hnav
        exact Option.noConfusion hnav
    rw [getSeriesNavigation_active _ _ hact] at hnav
    injection hnav with hnav
    subst hnav
    dsimp only
    refine ⟨rfl, List.sorted_insertionSort _ _, ?_, ?_⟩
    · intro k
      exact filter_insertionSort seriesOrderLE _
        (fun a b ha hb => by
          have ha' : effOrder a = k := of_decide_eq_true ha
          have hb' : effOrder b = k := of_decide_eq_true hb
          show effOrder a ≤ effOrder b
          rw [ha', hb']) _
    · intro i hi
      obtain ⟨hb, -, -⟩ := List.findIdx?_eq_some_iff_getElem.mp hi
      have hfi : findIndex (fun t => decide (t.slug = tutorial.slug))
          (getSeriesTutorials allTutorials (seriesKey tutorial)) = (i : Int) :=
        findIndex_eq_ofNat hi
      refine ⟨hfi, ?_, ?_, ?_, ?_⟩
      · intro h0
        rw [hfi, if_neg (show ¬ (0 : Int) < (i : Int) by omega)]
      · intro h0
        have hlt : i - 1 < (getSeriesTutorials allTutorials (seriesKey tutorial)).length := by
          omega
        constructor
        · rw [hfi, if_pos (show (0 : Int) < (i : Int) by omega),
            show ((i : Int) - 1).toNat = i - 1 by omega]
        · rw [List.getElem?_eq_getElem hlt]
          rfl
      · intro hlast
        rw [hfi, if_neg (show ¬ ((i : Int) <
          ((getSeriesTutorials allTutorials (seriesKey tutorial)).length : Int) - 1)
            by omega)]
      · intro hlast
        have hlt : i + 1 < (getSeriesTutorials allTutorials (seriesKey tutorial)).length := by
          omega
        constructor
        · rw [hfi, if_pos (show (i : Int) <
              ((getSeriesTutorials allTutorials (seriesKey tutorial)).length : Int) - 1
                by omega),
            show ((i : Int) + 1).toNat = i + 1 by omega]
        · rw [List.getElem?_eq_getElem hlt]
          rfl

/-- Witness for C3 at the demo collection, at the middle member of the
series (`i = 1`). -/
theorem navigation_characterization_witness :
    ({ series := [rust0, rust1, rust2], current := 1, prev := some rust0,
        next := some rust2 } : SeriesNavigation).current = (1 : Int) ∧
    ({ series := [rust0, rust1, rust2], current := 1, prev := some rust0,
        next := some rust2 } : SeriesNavigation).prev = [rust0, rust1, rust2][0]? :=
  ⟨(((navigation_characterization rust1 demoTutorials).2 _
      (by decide)).2.2.2 1 (by decide)).1,
    ((((navigation_characterization rust1 demoTutorials).2 _
      (by decide)).2.2.2 1 (by decide)).2.2.1 (by decide)).1⟩

/-! ### C4 -/

/-- C4 counterexample: invoked with `ghost`, whose slug is absent from the
collection although its series has members, the Navigator does not fail
with any error: it silently returns the degenerate navigation object with
`current = -1`. -/
theorem navigation_missing_not_error :
    getSeriesNavigation ghost demoTutorials =
      some { series := [rust0, rust1, rust2], current := -1, prev := none,
             next := some rust0 } := by
  decide

/-- C4 amended: the Navigator has no error path. For a tutorial with a
non-empty `series` it always returns a (non-null) result, and when the
tutorial's slug is not among the sorted members the result is the
degenerate `current = -1`, `prev = null` object. -/
theorem navigation_no_failfast (tutorial : Tutorial) (allTutorials : List Tutorial)
    (hact : seriesActive tutorial = true) :
    (∃ nav, getSeriesNavigation tutorial allTutorials = some nav) ∧
    ∀ nav, getSeriesNavigation tutorial allTutorials = some nav →
      (getSeriesTutorials allTutorials (seriesKey tutorial)).findIdx?
          (fun t => decide (t.slug = tutorial.slug)) = none →
      nav.current = -1 ∧ nav.prev = none := by
  constructor
  · exact ⟨_, getSeriesNavigation_active _ _ hact⟩
  · intro nav hnav hnone
    rw [getSeriesNavigation_active _ _ hact] at hnav
    injection hnav with hnav
    subst hnav
    have hfi : findIndex (fun t => decide (t.slug = tutorial.slug))
        (getSeriesTutorials allTutorials (seriesKey tutorial)) = -1 :=
      findIndex_eq_neg_one hnone
    constructor
    · exact hfi
    · show (if 0 < findIndex _ _ then _ else none) = none
      rw [hfi]
      rfl

/-- Witness for C4's amended statement, at `ghost`. -/
theorem navigation_no_failfast_witness :
    ∃ nav, getSeriesNavigation ghost demoTutorials = some nav :=
  (navigation_no_failfast ghost demoTutorials (by decide)).1

/-! ### C10 -/

/-- C10: for a tutorial with a non-empty `series` whose slug does not occur
among that series' members in `allTutorials`, the Navigator does not
throw: it returns the sorted member list as `series`, `current = -1`,
`prev = null`, and `next` the first sorted member — which is `null`
exactly when the series has no members (and then `series` is empty). -/
theorem navigation_missing_slug (tutorial : Tutorial) (allTutorials : List Tutorial)
    (hact : seriesActive tutorial = true)
    (hnone : (getSeriesTutorials allTutorials (seriesKey tutorial)).findIdx?
        (fun t => decide (t.slug = tutorial.slug)) = none) :
    getSeriesNavigation tutorial allTutorials =
      some { series := getSeriesTutorials allTutorials (seriesKey tutorial)
             current := -1
             prev := none
             next := (getSeriesTutorials allTutorials (seriesKey tutorial)).head? } := by
  have hfi : findIndex (fun t => decide (t.slug = tutorial.slug))
      (getSeriesTutorials allTutorials (seriesKey tutorial)) = -1 :=
    findIndex_eq_neg_one hnone
  rw [getSeriesNavigation_active _ _ hact, hfi]
  cases hst : getSeriesTutorials allTutorials (seriesKey tutorial) with
  | nil => rfl
  | cons a l =>
    have hcond : (-1 : Int) < ((a :: l).length : Int) - 1 := by
      simp only [List.length_cons]
      omega
    rw [if_neg (show ¬ (0 : Int) < -1 by decide), if_pos hcond]
    have h0 : ((-1 : Int) + 1).toNat = 0 := rfl
    rw [h0]
    simp

/-- Witness for C10 at `ghost` over the demo collection. -/
theorem navigation_missing_slug_witness :
    getSeriesNavigation ghost demoTutorials =
      some { series := getSeriesTutorials demoTutorials (seriesKey ghost)
             current := -1
             prev := none
             next := (getSeriesTutorials demoTutorials (seriesKey ghost)).head? } :=
  navigation_missing_slug ghost demoTutorials (by decide) (by decide)

/-! ### C5 -/

/-- C5 counterexample: fed a record missing the required `category` field,
the Organizer runs to completion and silently returns a result (the absent
category flows into `categories` as an `undefined` entry): it neither
validates its input nor raises any error before grouping. -/
theorem organize_no_validation :
    rawOrganize [rawMissingCategory] =
      .ok { standalone := [rawMissingCategory]
            series := []
            categories := [none]
            tags := [some "containers", some "docker"] } := by
  decide

/-- C5 amended: required-field validation lives in the content schema of
`src/content/config.ts`, which runs in the loader before the Organizer
ever sees a record: parsing fails for a record missing `category`,
`difficulty` or `dateCreated` (the required fields the Organizer reads),
it never fails merely because the optional `seriesOrder` or `dateUpdated`
are missing, and the Organizer itself performs no validation. -/
theorem schema_validates_required (r : RawTutorial) :
    (r.category = none → ∀ d, parseTutorialData r ≠ .ok d) ∧
    (r.difficulty = none → ∀ d, parseTutorialData r ≠ .ok d) ∧
    (r.dateCreated = none → ∀ d, parseTutorialData r ≠ .ok d) ∧
    (r.title ≠ none → r.description ≠ none → r.category ≠ none →
      r.difficulty ≠ none → r.status ≠ none → r.dateCreated ≠ none →
      ∃ d, parseTutorialData r = .ok d) := by
  obtain ⟨title, description, category, tags, difficulty, status, series,
    seriesOrder, dateCreated, dateUpdated, estimatedTime⟩ := r
  refine ⟨?_, ?_, ?_, ?_⟩
  · rintro rfl d hc
    cases title <;> cases description <;> simp [parseTutorialData] at hc
  · rintro rfl d hc
    cases title <;> cases description <;> cases category <;>
      simp [parseTutorialData] at hc
  · rintro rfl d hc
    cases title <;> cases description <;> cases category <;>
      cases difficulty <;> cases status <;> simp [parseTutorialData] at hc
  · intro h1 h2 h3 h4 h5 h6
    obtain ⟨t1, rfl⟩ := Option.ne_none_iff_exists.mp h1
    obtain ⟨t2, rfl⟩ := Option.ne_none_iff_exists.mp h2
    obtain ⟨t3, rfl⟩ := Option.ne_none_iff_exists.mp h3
    obtain ⟨t4, rfl⟩ := Option.ne_none_iff_exists.mp h4
    obtain ⟨t5, rfl⟩ := Option.ne_none_iff_exists.mp h5
    obtain ⟨t6, rfl⟩ := Option.ne_none_iff_exists.mp h6
    exact ⟨_, rfl⟩

/-- Witness for C5's amended statement: the schema rejects
`rawMissingCategory` and accepts `rawAllRequired`, although the latter has
neither `seriesOrder` nor `dateUpdated`. -/
theorem schema_validates_required_witness :
    (∀ d, parseTutorialData rawMissingCategory ≠ .ok d) ∧
    ∃ d, parseTutorialData rawAllRequired = .ok d :=
  ⟨(schema_validates_required rawMissingCategory).1 rfl,
    (schema_validates_required rawAllRequired).2.2.2 (by decide) (by decide)
      (by decide) (by decide) (by decide) (by decide)⟩

end Tutorials
